import Mathlib

/-!
# Verification of the tower-defense simulation core

A shallow embedding of the simulation core of `src/game/TowerDefenseGame.tsx`
(a canvas tower-defense game), together with theorems settling the frozen
claims about its specification.

Modelling conventions:
* JavaScript numbers are embedded as `ℚ` (all constants in the source are
  exact decimals), except counters and currency, which the program only ever
  holds at integer values and which are embedded as `Nat`/`Int`.
* Euclidean-distance comparisons `Math.hypot dx dy ≤ r` are embedded as the
  equivalent squared comparison `dx^2 + dy^2 ≤ r^2` (all radii in the source
  are nonnegative), so every definition stays executable; in particular the
  omega bomb splash radius `Math.sqrt (W * H * 0.25)` is represented exactly
  by its square `W * H * 0.25 = 135000`.
* External side effects (`localStorage.setItem`, the React unlock setter) are
  embedded as an event counter `persistWrites` on the state.
-/

namespace TD

/-- Canvas width `W = 900`. -/
def W : ℚ := 900
/-- Canvas height `H = 600`. -/
def H : ℚ := 600
/-- `PATH_WIDTH = 80`. -/
def PATH_WIDTH : ℚ := 80

/-- A 2D point, as in `interface Point`. -/
structure Point where
  x : ℚ
  y : ℚ
deriving DecidableEq

/-- Squared Euclidean distance; the embedding of `Math.hypot (x1-x2) (y1-y2)`
comparisons (compared against squared radii). -/
def dist2 (x1 y1 x2 y2 : ℚ) : ℚ := (x1 - x2) ^ 2 + (y1 - y2) ^ 2

/-- `interface EnemyType` (the color field is rendering-only and omitted). -/
structure EnemyType where
  name : String
  speed : ℚ
  hp : ℚ
  reward : ℚ
  radius : ℚ
deriving DecidableEq

/-- The static `enemyTypes` catalog. -/
def enemyTypes : List EnemyType :=
  [ { name := "Red", speed := 1.4, hp := 20, reward := 10, radius := 12 },
    { name := "Blue", speed := 1.8, hp := 35, reward := 15, radius := 13 },
    { name := "Green", speed := 2.2, hp := 55, reward := 20, radius := 14 },
    { name := "Yellow", speed := 2.6, hp := 80, reward := 30, radius := 14 },
    { name := "Pink", speed := 3.0, hp := 120, reward := 40, radius := 15 } ]

/-- `interface Enemy` (live instance). `t` is the progress fraction. -/
structure Enemy where
  t : ℚ
  speed : ℚ
  baseSpeed : ℚ
  etype : EnemyType
  hp : ℚ
  maxHp : ℚ
  x : ℚ
  y : ℚ
  reachedEnd : Bool
  dead : Bool
  isBoss : Bool
deriving DecidableEq

/-- The `special` tags of omega-tower projectiles. -/
inductive Special where
  | bomb
  | burning
  | rainbow
deriving DecidableEq

/-- `interface Projectile`. The `target` is embedded as an index into the
live-enemy list (the source holds an object reference; the liveness check is
identical). `splashSq` is the square of the source's `splashRadius`. -/
structure Projectile where
  x : ℚ
  y : ℚ
  target : Nat
  speed : ℚ
  damage : ℚ
  ptype : String
  splashSq : ℚ
  special : Option Special
deriving DecidableEq

/-- The special-effect cycle of the omega tower, keyed by the value `n` of
`t.shotsFired` at the moment of firing (the source increments the counter
first and then tests `n % 10`, `n % 4`, `n % 2` in that order):

    if (t.shotsFired % 10 === 0)      special = "rainbow"
    else if (t.shotsFired % 4 === 0)  special = "burning"
    else if (t.shotsFired % 2 === 0)  special = "bomb"

`none` is the plain shot. -/
def omegaSpecial (n : Nat) : Option Special :=
  if n % 10 = 0 then some Special.rainbow
  else if n % 4 = 0 then some Special.burning
  else if n % 2 = 0 then some Special.bomb
  else none

/-- C4, window part: the number of rainbow shots among the 10 consecutive
shot counters `n, n+1, ..., n+9`. -/
def rainbowCount (n : Nat) : Nat :=
  (List.range 10).countP (fun i => omegaSpecial (n + i) = some Special.rainbow)

theorem omegaSpecial_rainbow_iff (n : Nat) :
    omegaSpecial n = some Special.rainbow ↔ n % 10 = 0 := by
  unfold omegaSpecial
  split_ifs with h1 h2 h3 <;> simp_all

theorem omegaSpecial_burning_iff (n : Nat) :
    omegaSpecial n = some Special.burning ↔ (n % 4 = 0 ∧ n % 10 ≠ 0) := by
  unfold omegaSpecial
  split_ifs with h1 h2 h3 <;> simp_all

theorem omegaSpecial_bomb_iff (n : Nat) :
    omegaSpecial n = some Special.bomb ↔ (n % 2 = 0 ∧ n % 4 ≠ 0 ∧ n % 10 ≠ 0) := by
  unfold omegaSpecial
  split_ifs with h1 h2 h3 <;> simp_all

theorem omegaSpecial_none_iff (n : Nat) :
    omegaSpecial n = none ↔ n % 2 ≠ 0 := by
  unfold omegaSpecial
  split_ifs with h1 h2 h3 <;> simp_all <;> omega

theorem rainbowCount_eq_one (n : Nat) : rainbowCount n = 1 := by
  have hr : List.range 10 = [0, 1, 2, 3, 4, 5, 6, 7, 8, 9] := by decide
  have key : ∀ i : Nat, (n + i) % 10 = (n % 10 + i) % 10 :=
    fun i => (Nat.mod_add_mod n 10 i).symm
  unfold rainbowCount
  rw [hr]
  simp only [List.countP_cons, List.countP_nil, decide_eq_true_eq,
    omegaSpecial_rainbow_iff, key]
  have hlt : n % 10 < 10 := Nat.mod_lt _ (by norm_num)
  revert hlt
  generalize n % 10 = r
  intro hlt
  interval_cases r <;> simp

/-- C4: the omega tower's special effect is chosen by modulo priority
(`%10` first, then `%4`, then `%2`) from the shots-fired counter at the
moment of firing: rainbow exactly on multiples of 10, burning exactly on
multiples of 4 that are not multiples of 10, bomb exactly on the remaining
even counters, plain exactly on odd counters; consequently every window of
10 consecutive shots contains exactly one rainbow. -/
theorem omega_modulo_priority :
    (∀ n, omegaSpecial n = some Special.rainbow ↔ n % 10 = 0) ∧
    (∀ n, omegaSpecial n = some Special.burning ↔ (n % 4 = 0 ∧ n % 10 ≠ 0)) ∧
    (∀ n, omegaSpecial n = some Special.bomb ↔ (n % 2 = 0 ∧ n % 4 ≠ 0 ∧ n % 10 ≠ 0)) ∧
    (∀ n, omegaSpecial n = none ↔ n % 2 ≠ 0) ∧
    (∀ n, rainbowCount n = 1) :=
  ⟨omegaSpecial_rainbow_iff, omegaSpecial_burning_iff, omegaSpecial_bomb_iff,
   omegaSpecial_none_iff, rainbowCount_eq_one⟩

/-! ## Tower catalog and the economy operations -/

/-- One entry of the `towerDefs` record (rendering fields omitted;
`splashRadius` is `0` where the source record has no such field, matching
the `def.splashRadius || 0` read). -/
structure TowerDef where
  name : String
  cost : Int
  baseRange : Int
  baseDamage : Int
  baseFireRate : Int
  projectileSpeed : ℚ
  splashRadius : Int
  hidden : Bool
deriving DecidableEq

/-- The `towerDefs` catalog, keyed by the tower-type string. -/
def towerDefs (k : String) : Option TowerDef :=
  if k = "dart" then
    some { name := "Dart Monkey", cost := 100, baseRange := 140, baseDamage := 8,
           baseFireRate := 30, projectileSpeed := 8, splashRadius := 0, hidden := false }
  else if k = "bomb" then
    some { name := "Bomb Tower", cost := 250, baseRange := 150, baseDamage := 18,
           baseFireRate := 55, projectileSpeed := 5, splashRadius := 60, hidden := false }
  else if k = "sniper" then
    some { name := "Sniper", cost := 300, baseRange := 9999, baseDamage := 25,
           baseFireRate := 70, projectileSpeed := 12, splashRadius := 0, hidden := false }
  else if k = "ice" then
    some { name := "Ice Tower", cost := 200, baseRange := 120, baseDamage := 3,
           baseFireRate := 45, projectileSpeed := 6, splashRadius := 0, hidden := false }
  else if k = "omega" then
    some { name := "Omega Tower", cost := 800, baseRange := 200, baseDamage := 15,
           baseFireRate := 25, projectileSpeed := 9, splashRadius := 0, hidden := true }
  else none

/-- `interface Tower` (`ttype` is the source's `type` field, a Lean keyword). -/
structure Tower where
  x : ℚ
  y : ℚ
  ttype : String
  range : Int
  damage : Int
  fireRate : Int
  cooldown : Int
  levelDmg : Nat
  levelRng : Nat
  levelSpd : Nat
  targeting : String
  shotsFired : Nat
deriving DecidableEq

/-- `isOnPath`: is `(x, y)` within `PATH_WIDTH / 2 + 12` of some spline
sample (squared comparison, `52 ^ 2 = 2704`). -/
def isOnPath (x y : ℚ) (spline : List Point) : Bool :=
  spline.any (fun q => decide (dist2 x y q.x q.y < 2704))

/-- The economy-relevant slice of the game state (`stateRef`). -/
structure EconState where
  money : Int
  towers : List Tower
  baseLevel : Nat
  baseHp : Int
  baseMaxHp : Int
  cashMultiplier : ℚ
  omegaUnlocked : Bool
  spline : List Point
deriving DecidableEq

/-- The economy operations reachable from the input layer plus the kill
reward granted by projectile resolution. Tower-targeting upgrades are
addressed by index into the tower list (the source holds the selected
tower by reference). -/
inductive EconOp where
  | placeTower (pos : Point) (key : String)
  | upgradeDamage (i : Nat)
  | upgradeRange (i : Nat)
  | upgradeSpeed (i : Nat)
  | upgradeBase
  | sellTower (i : Nat)
  | killReward (amt : ℚ)
deriving DecidableEq

/-- `Math.floor(def.cost * 0.7 + (levelDmg + levelRng + levelSpd - 3) * 40)`.
For every catalog cost, `cost * 7` is divisible by `10` and the float
product `cost * 0.7` is a hair above the integer, so the floor equals the
exact integer `cost * 7 / 10` plus the upgrade term. -/
def sellValue (d : TowerDef) (t : Tower) : Int :=
  d.cost * 7 / 10 + ((t.levelDmg : Int) + (t.levelRng : Int) + (t.levelSpd : Int) - 3) * 40

/-- Tower placement (`handleClick`, place-tower branch): rejected when the
type is hidden and locked, the balance is insufficient, the point is on the
path, or another tower is within distance 36. -/
def placeTowerOp (s : EconState) (pos : Point) (key : String) : EconState :=
  match towerDefs key with
  | none => s
  | some d =>
    if d.hidden ∧ ¬ s.omegaUnlocked then s
    else if s.money < d.cost ∨ isOnPath pos.x pos.y s.spline = true ∨
        s.towers.any (fun t => decide (dist2 pos.x pos.y t.x t.y < 1296)) = true then s
    else
      { s with
        money := s.money - d.cost
        towers := s.towers ++
          [ { x := pos.x, y := pos.y, ttype := key, range := d.baseRange,
              damage := d.baseDamage, fireRate := d.baseFireRate, cooldown := 0,
              levelDmg := 1, levelRng := 1, levelSpd := 1, targeting := "first",
              shotsFired := 0 } ] }

/-- The damage upgrade (`Damage +5`, cost `levelDmg * 70`). -/
def upgradeDamageOp (s : EconState) (i : Nat) : EconState :=
  match s.towers.get? i with
  | none => s
  | some t =>
    let cost : Int := (t.levelDmg : Int) * 70
    if cost ≤ s.money then
      { s with
        money := s.money - cost
        towers := s.towers.set i { t with damage := t.damage + 5, levelDmg := t.levelDmg + 1 } }
    else s

/-- The range upgrade (`Range +15`, cost `levelRng * 60`). -/
def upgradeRangeOp (s : EconState) (i : Nat) : EconState :=
  match s.towers.get? i with
  | none => s
  | some t =>
    let cost : Int := (t.levelRng : Int) * 60
    if cost ≤ s.money then
      { s with
        money := s.money - cost
        towers := s.towers.set i { t with range := t.range + 15, levelRng := t.levelRng + 1 } }
    else s

/-- The speed upgrade (`Speed -3`, cost `levelSpd * 65`), accepted only
while `fireRate > 12`; the new interval is `max 10 (fireRate - 3)`. -/
def upgradeSpeedOp (s : EconState) (i : Nat) : EconState :=
  match s.towers.get? i with
  | none => s
  | some t =>
    let cost : Int := (t.levelSpd : Int) * 65
    if cost ≤ s.money ∧ 12 < t.fireRate then
      { s with
        money := s.money - cost
        towers := s.towers.set i
          { t with fireRate := max 10 (t.fireRate - 3), levelSpd := t.levelSpd + 1 } }
    else s

/-- The base upgrade (cost `baseLevel * 150`); the new maximum applies to
the healing clamp. -/
def upgradeBaseOp (s : EconState) : EconState :=
  let baseCost : Int := (s.baseLevel : Int) * 150
  if baseCost ≤ s.money then
    { s with
      money := s.money - baseCost
      baseLevel := s.baseLevel + 1
      baseMaxHp := s.baseMaxHp + 50
      baseHp := min (s.baseHp + 50) (s.baseMaxHp + 50) }
  else s

/-- Selling a tower refunds `sellValue` and removes it from the list. -/
def sellTowerOp (s : EconState) (i : Nat) : EconState :=
  match s.towers.get? i with
  | none => s
  | some t =>
    match towerDefs t.ttype with
    | none => s
    | some d =>
      { s with money := s.money + sellValue d t, towers := s.towers.eraseIdx i }

/-- The kill reward of `moveProjectiles`:
`s.money += Math.floor(amt * s.cashMultiplier)`. -/
def killRewardOp (s : EconState) (amt : ℚ) : EconState :=
  { s with money := s.money + ⌊amt * s.cashMultiplier⌋ }

/-- One economy operation, mirroring the guarded branches of `handleClick`
(and the `reward` closure of `moveProjectiles` for `killReward`). Every
failed precondition is a silent no-op, as in the source. -/
def applyOp (s : EconState) : EconOp → EconState
  | .placeTower pos key => placeTowerOp s pos key
  | .upgradeDamage i => upgradeDamageOp s i
  | .upgradeRange i => upgradeRangeOp s i
  | .upgradeSpeed i => upgradeSpeedOp s i
  | .upgradeBase => upgradeBaseOp s
  | .sellTower i => sellTowerOp s i
  | .killReward amt => killRewardOp s amt

/-- A sequence of economy operations. -/
def applyOps (s : EconState) (ops : List EconOp) : EconState :=
  ops.foldl applyOp s

/-- The purchase price an operation checks against the balance (`none` for
operations that are not purchases). -/
def opCost (s : EconState) : EconOp → Option Int
  | .placeTower _ key => (towerDefs key).map (fun d => d.cost)
  | .upgradeDamage i => (s.towers.get? i).map (fun t => (t.levelDmg : Int) * 70)
  | .upgradeRange i => (s.towers.get? i).map (fun t => (t.levelRng : Int) * 60)
  | .upgradeSpeed i => (s.towers.get? i).map (fun t => (t.levelSpd : Int) * 65)
  | .upgradeBase => some ((s.baseLevel : Int) * 150)
  | .sellTower _ => none
  | .killReward _ => none

/-- Well-formedness of a live tower: upgrade levels start at `1` and the
fire interval never drops below `10`. -/
def TowerWF (t : Tower) : Prop :=
  1 ≤ t.levelDmg ∧ 1 ≤ t.levelRng ∧ 1 ≤ t.levelSpd ∧ 10 ≤ t.fireRate

/-- Well-formedness of the economy state. -/
def EconWF (s : EconState) : Prop :=
  0 ≤ s.money ∧ 0 ≤ s.cashMultiplier ∧ ∀ t ∈ s.towers, TowerWF t

/-- Kill rewards in the program carry a catalog reward, which is never
negative; a sequence of operations is admissible when its rewards are. -/
def opOK : EconOp → Prop
  | .killReward amt => 0 ≤ amt
  | _ => True

theorem get?_lt {α : Type} {l : List α} {i : Nat} {a : α}
    (h : l.get? i = some a) : i < l.length := by
  by_contra hc
  rw [List.get?_eq_none.mpr (Nat.le_of_not_lt hc)] at h
  exact Option.noConfusion h

theorem towerDefs_baseFireRate {k : String} {d : TowerDef}
    (h : towerDefs k = some d) : 25 ≤ d.baseFireRate := by
  unfold towerDefs at h
  split_ifs at h <;>
    first
      | exact Option.noConfusion h
      | (injection h with h2; subst h2; decide)

theorem towerDefs_cost_nonneg {k : String} {d : TowerDef}
    (h : towerDefs k = some d) : 0 ≤ d.cost := by
  unfold towerDefs at h
  split_ifs at h <;>
    first
      | exact Option.noConfusion h
      | (injection h with h2; subst h2; decide)

theorem placeTowerOp_WF {s : EconState} {pos : Point} {key : String}
    (hs : EconWF s) : EconWF (placeTowerOp s pos key) := by
  obtain ⟨hm, hc, ht⟩ := hs
  unfold placeTowerOp
  cases hdef : towerDefs key with
  | none => exact ⟨hm, hc, ht⟩
  | some d =>
    dsimp only
    split_ifs with h1 h2
    · exact ⟨hm, hc, ht⟩
    · exact ⟨hm, hc, ht⟩
    · push_neg at h2
      have hcm := h2.1
      refine ⟨by dsimp only; omega, hc, ?_⟩
      dsimp only
      intro t htm
      rcases List.mem_append.mp htm with h | h
      · exact ht t h
      · have h25 := towerDefs_baseFireRate hdef
        simp only [List.mem_singleton] at h
        subst h
        exact ⟨le_refl _, le_refl _, le_refl _, by dsimp only; omega⟩

theorem upgradeDamageOp_WF {s : EconState} {i : Nat}
    (hs : EconWF s) : EconWF (upgradeDamageOp s i) := by
  obtain ⟨hm, hc, ht⟩ := hs
  unfold upgradeDamageOp
  cases hget : s.towers.get? i with
  | none => exact ⟨hm, hc, ht⟩
  | some t =>
    dsimp only
    split_ifs with h1
    · have htWF := ht t (List.get?_mem hget)
      refine ⟨by dsimp only; omega, hc, ?_⟩
      dsimp only
      intro u hu
      rcases List.mem_or_eq_of_mem_set hu with h | h
      · exact ht u h
      · subst h
        exact ⟨by dsimp only; omega, htWF.2.1, htWF.2.2.1, htWF.2.2.2⟩
    · exact ⟨hm, hc, ht⟩

theorem upgradeRangeOp_WF {s : EconState} {i : Nat}
    (hs : EconWF s) : EconWF (upgradeRangeOp s i) := by
  obtain ⟨hm, hc, ht⟩ := hs
  unfold upgradeRangeOp
  cases hget : s.towers.get? i with
  | none => exact ⟨hm, hc, ht⟩
  | some t =>
    dsimp only
    split_ifs with h1
    · have htWF := ht t (List.get?_mem hget)
      refine ⟨by dsimp only; omega, hc, ?_⟩
      dsimp only
      intro u hu
      rcases List.mem_or_eq_of_mem_set hu with h | h
      · exact ht u h
      · subst h
        exact ⟨htWF.1, by dsimp only; omega, htWF.2.2.1, htWF.2.2.2⟩
    · exact ⟨hm, hc, ht⟩

theorem upgradeSpeedOp_WF {s : EconState} {i : Nat}
    (hs : EconWF s) : EconWF (upgradeSpeedOp s i) := by
  obtain ⟨hm, hc, ht⟩ := hs
  unfold upgradeSpeedOp
  cases hget : s.towers.get? i with
  | none => exact ⟨hm, hc, ht⟩
  | some t =>
    dsimp only
    split_ifs with h1
    · have htWF := ht t (List.get?_mem hget)
      refine ⟨by dsimp only; omega, hc, ?_⟩
      dsimp only
      intro u hu
      rcases List.mem_or_eq_of_mem_set hu with h | h
      · exact ht u h
      · subst h
        exact ⟨htWF.1, htWF.2.1, by dsimp only; omega, by dsimp only; omega⟩
    · exact ⟨hm, hc, ht⟩

theorem upgradeBaseOp_WF {s : EconState} (hs : EconWF s) :
    EconWF (upgradeBaseOp s) := by
  obtain ⟨hm, hc, ht⟩ := hs
  unfold upgradeBaseOp
  dsimp only
  split_ifs with h1
  · exact ⟨by dsimp only; omega, hc, ht⟩
  · exact ⟨hm, hc, ht⟩

theorem sellTowerOp_WF {s : EconState} {i : Nat}
    (hs : EconWF s) : EconWF (sellTowerOp s i) := by
  obtain ⟨hm, hc, ht⟩ := hs
  unfold sellTowerOp
  cases hget : s.towers.get? i with
  | none => exact ⟨hm, hc, ht⟩
  | some t =>
    dsimp only
    cases hdef : towerDefs t.ttype with
    | none => exact ⟨hm, hc, ht⟩
    | some d =>
      dsimp only
      have htWF := ht t (List.get?_mem hget)
      have hcost : 0 ≤ d.cost := towerDefs_cost_nonneg hdef
      have hsv : 0 ≤ sellValue d t := by
        unfold sellValue
        have h1 := htWF.1
        have h2 := htWF.2.1
        have h3 := htWF.2.2.1
        have hdiv : 0 ≤ d.cost * 7 / 10 := Int.ediv_nonneg (by omega) (by omega)
        omega
      refine ⟨by dsimp only; omega, hc, ?_⟩
      dsimp only
      intro u hu
      exact ht u (List.eraseIdx_subset _ _ hu)

theorem killRewardOp_WF {s : EconState} {amt : ℚ} (hs : EconWF s)
    (hamt : 0 ≤ amt) : EconWF (killRewardOp s amt) := by
  obtain ⟨hm, hc, ht⟩ := hs
  unfold killRewardOp
  refine ⟨?_, hc, ht⟩
  dsimp only
  have hfl : (0 : Int) ≤ ⌊amt * s.cashMultiplier⌋ :=
    Int.floor_nonneg.mpr (mul_nonneg hamt hc)
  omega

theorem applyOp_WF {s : EconState} {op : EconOp} (hs : EconWF s) (hop : opOK op) :
    EconWF (applyOp s op) := by
  cases op with
  | placeTower pos key => exact placeTowerOp_WF hs
  | upgradeDamage i => exact upgradeDamageOp_WF hs
  | upgradeRange i => exact upgradeRangeOp_WF hs
  | upgradeSpeed i => exact upgradeSpeedOp_WF hs
  | upgradeBase => exact upgradeBaseOp_WF hs
  | sellTower i => exact sellTowerOp_WF hs
  | killReward amt => exact killRewardOp_WF hs hop

theorem applyOps_WF {s : EconState} {ops : List EconOp} (hs : EconWF s)
    (hops : ∀ op ∈ ops, opOK op) : EconWF (applyOps s ops) := by
  induction ops generalizing s with
  | nil => exact hs
  | cons op rest ih =>
    exact ih (applyOp_WF hs (hops op (List.mem_cons_self _ _)))
      (fun o ho => hops o (List.mem_cons_of_mem _ ho))

theorem applyOp_insufficient {s : EconState} {op : EconOp} {c : Int}
    (hcost : opCost s op = some c) (hlt : s.money < c) : applyOp s op = s := by
  cases op with
  | placeTower pos key =>
    simp only [opCost] at hcost
    show placeTowerOp s pos key = s
    unfold placeTowerOp
    cases hdef : towerDefs key with
    | none => rfl
    | some d =>
      rw [hdef] at hcost
      simp only [Option.map_some', Option.some_inj] at hcost
      subst hcost
      dsimp only
      split_ifs with h1 h2
      · rfl
      · rfl
      · exact absurd (Or.inl hlt) h2
  | upgradeDamage i =>
    simp only [opCost] at hcost
    show upgradeDamageOp s i = s
    unfold upgradeDamageOp
    cases hget : s.towers.get? i with
    | none => rfl
    | some t =>
      rw [hget] at hcost
      simp only [Option.map_some', Option.some_inj] at hcost
      dsimp only
      split_ifs with h1
      · omega
      · rfl
  | upgradeRange i =>
    simp only [opCost] at hcost
    show upgradeRangeOp s i = s
    unfold upgradeRangeOp
    cases hget : s.towers.get? i with
    | none => rfl
    | some t =>
      rw [hget] at hcost
      simp only [Option.map_some', Option.some_inj] at hcost
      dsimp only
      split_ifs with h1
      · omega
      · rfl
  | upgradeSpeed i =>
    simp only [opCost] at hcost
    show upgradeSpeedOp s i = s
    unfold upgradeSpeedOp
    cases hget : s.towers.get? i with
    | none => rfl
    | some t =>
      rw [hget] at hcost
      simp only [Option.map_some', Option.some_inj] at hcost
      dsimp only
      split_ifs with h1
      · exact absurd h1.1 (by omega)
      · rfl
  | upgradeBase =>
    simp only [opCost, Option.some_inj] at hcost
    show upgradeBaseOp s = s
    unfold upgradeBaseOp
    dsimp only
    split_ifs with h1
    · omega
    · rfl
  | sellTower i => exact Option.noConfusion hcost
  | killReward amt => exact Option.noConfusion hcost

/-- C3: the currency balance stays nonnegative under every admissible
sequence of economy operations (placements, stat upgrades, base upgrades,
sells, kill rewards), and any purchase or upgrade whose cost exceeds the
current balance is a no-op leaving the whole economy state (currency,
tower list, tower stats, base state) unchanged. -/
theorem currency_nonneg_and_insufficient_noop :
    (∀ s ops, EconWF s → (∀ op ∈ ops, opOK op) → 0 ≤ (applyOps s ops).money) ∧
    (∀ s op c, opCost s op = some c → s.money < c → applyOp s op = s) :=
  ⟨fun _ _ hs hops => (applyOps_WF hs hops).1,
   fun _ _ _ hcost hlt => applyOp_insufficient hcost hlt⟩

/-- The economy state as initialized by `startGame` (the spline argument is
the sampled curve of the selected map). -/
def econInit (spline : List Point) : EconState :=
  { money := 500, towers := [], baseLevel := 1, baseHp := 100, baseMaxHp := 100,
    cashMultiplier := 1, omegaUnlocked := false, spline := spline }

theorem econInit_WF (spline : List Point) : EconWF (econInit spline) := by
  refine ⟨by norm_num [econInit], by norm_num [econInit], ?_⟩
  intro t h
  simp [econInit] at h

/-- Witness for C3: from the initial 500-coin state, a concrete operation
sequence keeps the balance nonnegative, and a dart purchase with only 50
coins in hand is a no-op. -/
theorem currency_nonneg_and_insufficient_noop_witness :
    0 ≤ (applyOps (econInit []) [EconOp.placeTower ⟨100, 100⟩ "dart",
          EconOp.upgradeDamage 0, EconOp.killReward 10]).money ∧
    applyOp { econInit [] with money := 50 } (EconOp.placeTower ⟨100, 100⟩ "dart")
      = { econInit [] with money := 50 } := by
  constructor
  · refine currency_nonneg_and_insufficient_noop.1 (econInit []) _ (econInit_WF []) ?_
    intro op hop
    fin_cases hop <;> simp [opOK]
  · exact currency_nonneg_and_insufficient_noop.2 _ _ 100 (by decide) (by decide)

/-- A concrete dart tower whose fire interval has been driven down to 12. -/
def twelveTower : Tower :=
  { x := 100, y := 100, ttype := "dart", range := 140, damage := 8, fireRate := 12,
    cooldown := 0, levelDmg := 1, levelRng := 1, levelSpd := 7, targeting := "first",
    shotsFired := 0 }

/-- A concrete dart tower at its base fire interval 30. -/
def thirtyTower : Tower :=
  { x := 100, y := 100, ttype := "dart", range := 140, damage := 8, fireRate := 30,
    cooldown := 0, levelDmg := 1, levelRng := 1, levelSpd := 1, targeting := "first",
    shotsFired := 0 }

/-- C10: the tower fire-interval floor. Every catalog base fire rate is at
least 25; the speed upgrade is a no-op (whole state unchanged) when the
fire interval is at most 12 or the cost exceeds the balance; an accepted
speed upgrade sets the interval to `max 10 (fireRate - 3)`; and along every
admissible operation sequence from a well-formed state every tower keeps a
fire interval of at least 10. -/
theorem fireRate_never_below_ten :
    (∀ k d, towerDefs k = some d → 25 ≤ d.baseFireRate) ∧
    (∀ s i t, s.towers.get? i = some t →
      (t.fireRate ≤ 12 ∨ s.money < (t.levelSpd : Int) * 65) →
      applyOp s (.upgradeSpeed i) = s) ∧
    (∀ s i t, s.towers.get? i = some t → (t.levelSpd : Int) * 65 ≤ s.money →
      12 < t.fireRate →
      (applyOp s (.upgradeSpeed i)).towers.get? i =
        some { t with fireRate := max 10 (t.fireRate - 3), levelSpd := t.levelSpd + 1 }) ∧
    (∀ s ops, EconWF s → (∀ op ∈ ops, opOK op) →
      ∀ t ∈ (applyOps s ops).towers, 10 ≤ t.fireRate) := by
  refine ⟨fun _ _ h => towerDefs_baseFireRate h, ?_, ?_, ?_⟩
  · intro s i t hget hcond
    show upgradeSpeedOp s i = s
    unfold upgradeSpeedOp
    rw [hget]
    dsimp only
    split_ifs with h1
    · rcases hcond with h | h
      · exact absurd h1.2 (by omega)
      · exact absurd h1.1 (by omega)
    · rfl
  · intro s i t hget hmoney hfr
    have hi : i < s.towers.length := get?_lt hget
    show (upgradeSpeedOp s i).towers.get? i = _
    unfold upgradeSpeedOp
    rw [hget]
    dsimp only
    split_ifs with h1
    · dsimp only
      exact List.get?_set_eq_of_lt _ (by simpa using hi)
    · exact absurd ⟨hmoney, hfr⟩ h1
  · intro s ops hs hops t htm
    exact ((applyOps_WF hs hops).2.2 t htm).2.2.2

/-- Witness for C10: the dart catalog fire rate is 30; a concrete speed
upgrade at fire interval 12 is a no-op; one at 30 yields 27. -/
theorem fireRate_never_below_ten_witness :
    ((towerDefs "dart").map (fun d => d.baseFireRate) = some 30) ∧
    applyOp { econInit [] with towers := [twelveTower] } (EconOp.upgradeSpeed 0)
      = { econInit [] with towers := [twelveTower] } ∧
    (applyOp { econInit [] with towers := [thirtyTower] } (EconOp.upgradeSpeed 0)).towers.get? 0
      = some { thirtyTower with fireRate := 27, levelSpd := 2 } := by
  refine ⟨by decide, ?_, ?_⟩
  · exact fireRate_never_below_ten.2.1 _ 0 twelveTower (by decide) (Or.inl (by decide))
  · have h := fireRate_never_below_ten.2.2.1
      { econInit [] with towers := [thirtyTower] } 0 thirtyTower (by decide) (by decide) (by decide)
    simpa using h

/-! ## Tower targeting and firing (`towersAct`) -/

/-- Range test `dist(t, e) <= t.range` (squared comparison). -/
def inRange (t : Tower) (e : Enemy) : Bool :=
  decide (dist2 t.x t.y e.x e.y ≤ ((t.range : ℚ)) ^ 2)

/-- Strict "is `b` a better target than `a`" for the three targeting
policies (`first`: larger progress; `last`: smaller progress; `strong`:
larger hit points — the sort comparators of the source). -/
def betterTarget (mode : String) (a b : Enemy) : Bool :=
  if mode = "first" then decide (a.t < b.t)
  else if mode = "last" then decide (b.t < a.t)
  else decide (a.hp < b.hp)

/-- `cands.sort(cmp)[0]` for a stable sort: the first candidate among the
maxima of the strict comparator. Candidates are indexed into the
live-enemy list. -/
def selectTarget (mode : String) (hd : Nat × Enemy) (tl : List (Nat × Enemy)) :
    Nat × Enemy :=
  tl.foldl (fun best p => if betterTarget mode best.2 p.2 then p else best) hd

/-- An ordinary (non-omega) projectile carrying the tower's current
damage, the catalog projectile speed and splash radius. -/
def mkProjectile (t : Tower) (d : TowerDef) (tgt : Nat) : Projectile :=
  { x := t.x, y := t.y, target := tgt, speed := d.projectileSpeed,
    damage := (t.damage : ℚ), ptype := t.ttype,
    splashSq := ((d.splashRadius : ℚ)) ^ 2, special := none }

/-- The omega-tower projectile for post-increment shot counter `n`:
rainbow deals 250, burning deals `towerDefs.sniper.baseDamage * 4`, bomb
has splash radius `Math.sqrt (W * H * 0.25)` (stored squared: 135000). -/
def omegaProjectile (t : Tower) (d : TowerDef) (n : Nat) (tgt : Nat) : Projectile :=
  let special := omegaSpecial n
  let dmg : ℚ :=
    if special = some Special.rainbow then 250
    else if special = some Special.burning then
      ((towerDefs "sniper").elim 0 (fun sd => (sd.baseDamage : ℚ))) * 4
    else (t.damage : ℚ)
  let splashSq : ℚ := if special = some Special.bomb then W * H * 0.25 else 0
  { x := t.x, y := t.y, target := tgt, speed := d.projectileSpeed, damage := dmg,
    ptype := t.ttype, splashSq := splashSq, special := special }

/-- One tower's action per tick (`towersAct` loop body): while the cooldown
is positive it is decremented and the tower is skipped; otherwise the tower
targets an in-range enemy (if any), emits a projectile, increments its shot
counter and resets its cooldown to the current fire interval. Tower types
always come from the catalog; an off-catalog type idles. -/
def towerStep (enemies : List Enemy) (t : Tower) : Tower × Option Projectile :=
  if 0 < t.cooldown then ({ t with cooldown := t.cooldown - 1 }, none)
  else
    match enemies.enum.filter (fun p => inRange t p.2) with
    | [] => (t, none)
    | c :: cs =>
      match towerDefs t.ttype with
      | none => (t, none)
      | some d =>
        let chosen := selectTarget t.targeting c cs
        let t2 := { t with shotsFired := t.shotsFired + 1 }
        let proj :=
          if t.ttype = "omega" then omegaProjectile t d t2.shotsFired chosen.1
          else mkProjectile t d chosen.1
        ({ t2 with cooldown := t.fireRate }, some proj)

/-- C7: a tower with positive cooldown never fires — the step only
decrements the cooldown — and whenever a tower does fire (emits a
projectile), its new cooldown equals its current fire interval and its
cooldown had already run out. -/
theorem cooldown_gates_firing :
    (∀ es t, 0 < t.cooldown →
      towerStep es t = ({ t with cooldown := t.cooldown - 1 }, none)) ∧
    (∀ es t t2 p, towerStep es t = (t2, some p) →
      t2.cooldown = t.fireRate ∧ t.cooldown ≤ 0 ∧ t2.shotsFired = t.shotsFired + 1) := by
  constructor
  · intro es t h
    unfold towerStep
    rw [if_pos h]
  · intro es t t2 p h
    unfold towerStep at h
    split_ifs at h with hcd homega
    · simp at h
    all_goals
      revert h
      split
      · intro h
        simp at h
      · split
        · intro h
          simp at h
        · intro h
          simp only [Prod.mk.injEq, Option.some_inj] at h
          obtain ⟨h1, h2⟩ := h
          subst h1
          exact ⟨rfl, by omega, rfl⟩

/-- A dart tower mid-cooldown. -/
def coolTower : Tower := { thirtyTower with cooldown := 3 }

/-- An enemy standing 20 pixels from `thirtyTower`, well within range. -/
def rangeEnemy : Enemy :=
  { t := 0.5, speed := 1.4, baseSpeed := 1.4,
    etype := { name := "Red", speed := 1.4, hp := 20, reward := 10, radius := 12 },
    hp := 20, maxHp := 20, x := 100, y := 120, reachedEnd := false, dead := false,
    isBoss := false }

/-- `thirtyTower` after firing once. -/
def firedTower : Tower := { thirtyTower with shotsFired := 1, cooldown := 30 }

/-- The projectile emitted by `thirtyTower` at `rangeEnemy`. -/
def firedProj : Projectile :=
  { x := 100, y := 100, target := 0, speed := 8, damage := 8, ptype := "dart",
    splashSq := 0, special := none }

/-- Witness for C7: a cooldown-3 tower only counts down; a ready tower
fires at an in-range enemy and its cooldown is reset to its fire interval. -/
theorem cooldown_gates_firing_witness :
    towerStep [] coolTower = ({ coolTower with cooldown := coolTower.cooldown - 1 }, none) ∧
    (firedTower.cooldown = thirtyTower.fireRate ∧ thirtyTower.cooldown ≤ 0 ∧
      firedTower.shotsFired = thirtyTower.shotsFired + 1) :=
  ⟨cooldown_gates_firing.1 [] coolTower (by decide),
   cooldown_gates_firing.2 [rangeEnemy] thirtyTower firedTower firedProj (by
     norm_num [towerStep, thirtyTower, rangeEnemy, firedTower, firedProj, inRange,
       dist2, towerDefs, selectTarget, mkProjectile, List.enum, List.enumFrom,
       List.filter]
     intro h
     exact absurd h (by decide))⟩

/-! ## Base damage on reaching the end (`moveEnemies`, filter phase) -/

/-- The base/attrition slice of the game state touched by the end-of-path
filter of `moveEnemies`. -/
structure BaseState where
  baseHp : Int
  damageTaken : Int
  lives : Int
  money : Int
deriving DecidableEq

/-- Resolution of a single enemy by the end-of-movement filter of
`moveEnemies`: a `reachedEnd` enemy deals `isBoss ? 10 : 1` base damage,
accumulates it into `damageTaken`, costs a life (and clamps base hit
points to 0) when the base drops to 0 or below, and is dropped from the
list; otherwise the enemy is kept unless flagged dead. The boolean is the
filter predicate value. -/
def resolveEnemyEnd (b : BaseState) (e : Enemy) : BaseState × Bool :=
  if e.reachedEnd then
    let dmg : Int := if e.isBoss then 10 else 1
    let hp2 := b.baseHp - dmg
    ({ b with
       baseHp := if hp2 ≤ 0 then 0 else hp2
       damageTaken := b.damageTaken + dmg
       lives := if hp2 ≤ 0 then b.lives - 1 else b.lives }, false)
  else (b, !e.dead)

/-- The whole filter pass `s.enemies = s.enemies.filter(...)` with its side
effects, processed in list order as `Array.prototype.filter` does. -/
def resolveEnemies (b : BaseState) : List Enemy → BaseState × List Enemy
  | [] => (b, [])
  | e :: es =>
    let r := resolveEnemyEnd b e
    let rest := resolveEnemies r.1 es
    (rest.1, if r.2 then e :: rest.2 else rest.2)

/-- C6: an enemy whose progress has reached the end is resolved as
`reachedEnd`: it is removed (filter predicate `false`), base hit points
drop by the fixed per-enemy damage (1 normal, 10 boss) — clamped to 0 with
the loss of exactly one life when they reach 0 or below — the same amount
accumulates into `damageTaken`, and no currency is granted. -/
theorem reachedEnd_resolution (b : BaseState) (e : Enemy)
    (h : e.reachedEnd = true) :
    (resolveEnemyEnd b e).2 = false ∧
    (resolveEnemyEnd b e).1.money = b.money ∧
    (resolveEnemyEnd b e).1.damageTaken
      = b.damageTaken + (if e.isBoss then 10 else 1) ∧
    (resolveEnemyEnd b e).1.baseHp
      = (if b.baseHp - (if e.isBoss then 10 else 1) ≤ 0 then 0
         else b.baseHp - (if e.isBoss then 10 else 1)) ∧
    (resolveEnemyEnd b e).1.lives
      = (if b.baseHp - (if e.isBoss then 10 else 1) ≤ 0 then b.lives - 1
         else b.lives) := by
  unfold resolveEnemyEnd
  rw [if_pos h]
  refine ⟨rfl, rfl, rfl, rfl, rfl⟩

/-- Witness for C6: a normal enemy at the end of the path against a
2-hit-point base: base clamps to 0, one life is lost, damage accumulates,
money untouched. -/
theorem reachedEnd_resolution_witness :
    (resolveEnemyEnd ⟨2, 0, 30, 500⟩ { rangeEnemy with reachedEnd := true }).2 = false ∧
    (resolveEnemyEnd ⟨2, 0, 30, 500⟩ { rangeEnemy with reachedEnd := true }).1.money = 500 ∧
    (resolveEnemyEnd ⟨2, 0, 30, 500⟩ { rangeEnemy with reachedEnd := true }).1.damageTaken
      = 0 + (if ({ rangeEnemy with reachedEnd := true } : Enemy).isBoss then 10 else 1) ∧
    (resolveEnemyEnd ⟨2, 0, 30, 500⟩ { rangeEnemy with reachedEnd := true }).1.baseHp
      = (if (2 : Int) - (if ({ rangeEnemy with reachedEnd := true } : Enemy).isBoss then 10 else 1) ≤ 0
         then 0 else 2 - (if ({ rangeEnemy with reachedEnd := true } : Enemy).isBoss then 10 else 1)) ∧
    (resolveEnemyEnd ⟨2, 0, 30, 500⟩ { rangeEnemy with reachedEnd := true }).1.lives
      = (if (2 : Int) - (if ({ rangeEnemy with reachedEnd := true } : Enemy).isBoss then 10 else 1) ≤ 0
         then 30 - 1 else 30) :=
  reachedEnd_resolution ⟨2, 0, 30, 500⟩ { rangeEnemy with reachedEnd := true } (by decide)

/-! ## Projectile resolution (`moveProjectiles`)

The pass state carries the live-enemy list, the currency balance, the cash
multiplier (read-only during the pass), an event log of the enemy indices
granted a kill reward (the `reward(...)` calls, in order), and the
surviving projectiles. The floating-point flight step
`p.x += dx / d * p.speed` (with `d = Math.hypot dx dy`) touches only the
projectile's own coordinates and has no exact rational embedding; it is
abstracted as the `mv` parameter below. Whether a projectile resolves this
tick is decided from current positions (`d < 8`, squared: `< 64`), exactly
as in the source. -/

structure PassState where
  enemies : List Enemy
  money : Int
  mult : ℚ
  log : List Nat
  projs : List Projectile
deriving DecidableEq

/-- Does this hit newly kill `e`? (`e.hp - dmg <= 0 && !e.dead`, the guard
of every `reward` call). -/
def newlyDead (dmg : ℚ) (e : Enemy) : Bool :=
  decide (e.hp - dmg ≤ 0) && !e.dead

/-- `e.hp -= dmg; if (e.hp <= 0 && !e.dead) e.dead = true`. -/
def hitEnemy (dmg : ℚ) (e : Enemy) : Enemy :=
  let e1 := { e with hp := e.hp - dmg }
  if e1.hp ≤ 0 ∧ e.dead = false then { e1 with dead := true } else e1

/-- The enemy indices rewarded by an area hit over the current list. -/
def rewardedIdx (cond : Enemy → Bool) (dmg : ℚ) (es : List Enemy) : List Nat :=
  (List.range es.length).filter (fun i =>
    ((es.get? i).map (fun e => cond e && newlyDead dmg e)).getD false)

/-- The total currency granted by an area hit (the sum of the individual
`Math.floor(reward * cashMultiplier)` increments). -/
def areaGain (cond : Enemy → Bool) (dmg : ℚ) (mult : ℚ) (es : List Enemy) : Int :=
  ((es.filter (fun e => cond e && newlyDead dmg e)).map
    (fun e => ⌊e.etype.reward * mult⌋)).sum

/-- `s.enemies.forEach(e => { if cond e then hit e })` for rainbow
(`cond = true`) and splash (`cond` = within splash radius) shapes: every
matching enemy takes damage (dead ones included, as in the source), and
each newly dead one is rewarded once. -/
def areaDamage (cond : Enemy → Bool) (dmg : ℚ) (st : PassState) : PassState :=
  { st with
    enemies := st.enemies.map (fun e => if cond e then hitEnemy dmg e else e)
    money := st.money + areaGain cond dmg st.mult st.enemies
    log := st.log ++ rewardedIdx cond dmg st.enemies }

/-- A single-target hit on the enemy at index `i`. -/
def singleHit (i : Nat) (dmg : ℚ) (st : PassState) : PassState :=
  match st.enemies.get? i with
  | none => st
  | some e =>
    { st with
      enemies := st.enemies.set i (hitEnemy dmg e)
      money := st.money + (if newlyDead dmg e then ⌊e.etype.reward * st.mult⌋ else 0)
      log := st.log ++ (if newlyDead dmg e then [i] else []) }

/-- The ice slow applied to one enemy:
`if (dist(p, e) <= 60) e.speed = Math.max(0.3, e.baseSpeed * 0.5)`
(squared comparison, `60 ^ 2 = 3600`). -/
def iceSlow (px py : ℚ) (e : Enemy) : Enemy :=
  if dist2 px py e.x e.y ≤ 3600 then { e with speed := max 0.3 (e.baseSpeed * 0.5) }
  else e

/-- Per-tick speed recovery (`loop`):
`e.speed = Math.min(e.baseSpeed, e.speed + 0.01)`. -/
def recoverSpeed (e : Enemy) : Enemy :=
  { e with speed := min e.baseSpeed (e.speed + 0.01) }

/-- Resolution of a projectile that has reached its target, by damage
shape, in the source's dispatch order: rainbow (hits everything), bomb
special or bomb type with positive splash (splash radius), burning
(single target), ice (slow all within radius 60, then hit the target),
plain single target. -/
def resolveHit (p : Projectile) (st : PassState) : PassState :=
  if p.special = some Special.rainbow then
    areaDamage (fun _ => true) p.damage st
  else if p.special = some Special.bomb ∨ (p.ptype = "bomb" ∧ 0 < p.splashSq) then
    areaDamage (fun e => decide (dist2 p.x p.y e.x e.y ≤ p.splashSq)) p.damage st
  else if p.special = some Special.burning then
    singleHit p.target p.damage st
  else if p.ptype = "ice" then
    singleHit p.target p.damage { st with enemies := st.enemies.map (iceSlow p.x p.y) }
  else
    singleHit p.target p.damage st

/-- One projectile of the `moveProjectiles` loop: a stale target (missing,
dead, or `reachedEnd`) discards the projectile with no effect; a target
within the proximity threshold resolves the hit; otherwise the projectile
flies on (kept in `projs`, coordinates updated by `mv`). -/
def processProjectile (mv : Projectile → Enemy → Projectile)
    (st : PassState) (p : Projectile) : PassState :=
  match st.enemies.get? p.target with
  | none => st
  | some tgt =>
    if tgt.dead || tgt.reachedEnd then st
    else if dist2 p.x p.y tgt.x tgt.y < 64 then resolveHit p st
    else { st with projs := st.projs ++ [mv p tgt] }

/-- The initial pass state. -/
def initPass (es : List Enemy) (money : Int) (mult : ℚ) : PassState :=
  { enemies := es, money := money, mult := mult, log := [], projs := [] }

/-- The projectile loop over the current projectile list. -/
def runProjectiles (mv : Projectile → Enemy → Projectile)
    (st : PassState) (ps : List Projectile) : PassState :=
  ps.foldl (processProjectile mv) st

/-- The whole `moveProjectiles` pass: loop over the projectiles, then prune
dead enemies (`s.enemies = s.enemies.filter(e => !e.dead)`). -/
def moveProjectiles (mv : Projectile → Enemy → Projectile)
    (es : List Enemy) (money : Int) (mult : ℚ) (ps : List Projectile) : PassState :=
  let st := runProjectiles mv (initPass es money mult) ps
  { st with enemies := st.enemies.filter (fun e => !e.dead) }

theorem hitEnemy_hp (dmg : ℚ) (e : Enemy) : (hitEnemy dmg e).hp = e.hp - dmg := by
  unfold hitEnemy
  dsimp only
  split_ifs <;> rfl

theorem hitEnemy_dead (dmg : ℚ) (e : Enemy) :
    (hitEnemy dmg e).dead = (e.dead || newlyDead dmg e) := by
  unfold hitEnemy newlyDead
  by_cases hd : e.dead <;> by_cases hh : e.hp - dmg ≤ 0 <;> simp [hd, hh]

theorem hitEnemy_baseSpeed (dmg : ℚ) (e : Enemy) :
    (hitEnemy dmg e).baseSpeed = e.baseSpeed := by
  unfold hitEnemy
  dsimp only
  split_ifs <;> rfl

theorem iceSlow_hp (px py : ℚ) (e : Enemy) : (iceSlow px py e).hp = e.hp := by
  unfold iceSlow
  split_ifs <;> rfl

theorem iceSlow_dead (px py : ℚ) (e : Enemy) : (iceSlow px py e).dead = e.dead := by
  unfold iceSlow
  split_ifs <;> rfl

theorem iceSlow_baseSpeed (px py : ℚ) (e : Enemy) :
    (iceSlow px py e).baseSpeed = e.baseSpeed := by
  unfold iceSlow
  split_ifs <;> rfl

theorem count_filter_range (n : Nat) (p : Nat → Bool) (i : Nat) :
    ((List.range n).filter p).count i = if i < n ∧ p i = true then 1 else 0 := by
  induction n with
  | zero => simp
  | succ m ih =>
    rw [List.range_succ, List.filter_append, List.count_append, ih]
    by_cases hpm : p m = true <;> by_cases him : i = m <;>
      simp only [List.filter_cons, List.filter_nil, hpm, him, if_true, if_false,
        List.count_cons, List.count_nil, beq_self_eq_true, reduceIte] <;>
      split_ifs <;> simp_all <;> omega

/-- Relation between a pass state and a later one within the same
projectile pass: the enemy list keeps its length, each enemy only loses
hit points, death is permanent, and the reward log gains exactly one entry
for an enemy exactly when this stretch of the pass killed it. -/
def StepRel (st st' : PassState) : Prop :=
  st'.enemies.length = st.enemies.length ∧
  ∀ i e e', st.enemies.get? i = some e → st'.enemies.get? i = some e' →
    e'.hp ≤ e.hp ∧ (e.dead = true → e'.dead = true) ∧
    st'.log.count i = st.log.count i
      + (if e'.dead = true ∧ e.dead = false then 1 else 0)

theorem StepRel_of_same {st st' : PassState} (h1 : st'.enemies = st.enemies)
    (h2 : st'.log = st.log) : StepRel st st' := by
  refine ⟨by rw [h1], ?_⟩
  intro i e e' hi hi'
  rw [h1] at hi'
  rw [hi] at hi'
  injection hi' with he
  subst he
  simp [h2]

theorem StepRel_refl (st : PassState) : StepRel st st := StepRel_of_same rfl rfl

theorem StepRel_trans {st1 st2 st3 : PassState}
    (h12 : StepRel st1 st2) (h23 : StepRel st2 st3) : StepRel st1 st3 := by
  refine ⟨h23.1.trans h12.1, ?_⟩
  intro i e e'' hi hi''
  have hlt : i < st2.enemies.length := by
    rw [h12.1]
    exact get?_lt hi
  obtain ⟨e', hi'⟩ : ∃ e', st2.enemies.get? i = some e' := ⟨_, List.get?_eq_get hlt⟩
  obtain ⟨hp1, hd1, hc1⟩ := h12.2 i e e' hi hi'
  obtain ⟨hp2, hd2, hc2⟩ := h23.2 i e' e'' hi' hi''
  refine ⟨hp2.trans hp1, fun h => hd2 (hd1 h), ?_⟩
  rw [hc2, hc1]
  by_cases hde : e.dead = true
  · have hde' := hd1 hde
    have hde'' := hd2 hde'
    simp [hde, hde', hde'']
  · by_cases hde' : e'.dead = true
    · have hde'' := hd2 hde'
      simp [hde, hde', hde'']
    · by_cases hde'' : e''.dead = true <;> simp [hde, hde', hde'', Nat.add_assoc]

theorem singleHit_rel {st : PassState} {j : Nat} {dmg : ℚ} (hdmg : 0 ≤ dmg) :
    StepRel st (singleHit j dmg st) := by
  unfold singleHit
  cases hget : st.enemies.get? j with
  | none => exact StepRel_refl st
  | some e0 =>
    dsimp only
    constructor
    · simp [List.length_set]
    · intro i e e' hi hi'
      dsimp only at hi'
      by_cases hij : i = j
      · subst hij
        rw [hget] at hi
        injection hi with he
        subst he
        rw [List.get?_set_eq_of_lt _ (get?_lt hget)] at hi'
        injection hi' with he'
        subst he'
        refine ⟨by rw [hitEnemy_hp]; linarith, ?_, ?_⟩
        · intro h
          rw [hitEnemy_dead, h]
          simp
        · rw [List.count_append, hitEnemy_dead]
          by_cases hd : e0.dead = true
          · have hn : newlyDead dmg e0 = false := by simp [newlyDead, hd]
            simp [hd, hn]
          · by_cases hn : newlyDead dmg e0 = true <;> simp [hd, hn]
      · rw [List.get?_set_ne _ _ (fun h => hij h.symm)] at hi'
        rw [hi] at hi'
        injection hi' with he'
        subst he'
        refine ⟨le_refl _, fun h => h, ?_⟩
        rw [List.count_append]
        have : (if newlyDead dmg e0 = true then [j] else []).count i = 0 := by
          split_ifs <;> simp [List.count_cons, hij]
        simp [this]

theorem areaDamage_rel {st : PassState} {cond : Enemy → Bool} {dmg : ℚ}
    (hdmg : 0 ≤ dmg) : StepRel st (areaDamage cond dmg st) := by
  constructor
  · simp [areaDamage]
  · intro i e e' hi hi'
    simp only [areaDamage] at hi'
    rw [List.get?_map, hi] at hi'
    simp only [Option.map_some'] at hi'
    injection hi' with he'
    have hlt : i < st.enemies.length := get?_lt hi
    have hcount : (areaDamage cond dmg st).log.count i
        = st.log.count i + (rewardedIdx cond dmg st.enemies).count i := by
      simp [areaDamage, List.count_append]
    have hridx : (rewardedIdx cond dmg st.enemies).count i
        = if cond e && newlyDead dmg e = true then 1 else 0 := by
      unfold rewardedIdx
      rw [count_filter_range]
      simp only [hi, Option.map_some', Option.getD_some]
      simp [hlt]
    rw [hcount, hridx]
    by_cases hc : cond e = true
    · rw [if_pos hc] at he'
      subst he'
      refine ⟨by rw [hitEnemy_hp]; linarith, ?_, ?_⟩
      · intro h
        rw [hitEnemy_dead, h]
        simp
      · rw [hitEnemy_dead]
        by_cases hd : e.dead <;> by_cases hn : newlyDead dmg e = true
        · exact absurd hn (by simp [newlyDead, hd])
        · simp [hd, hn, hc]
        · simp [hd, hn, hc]
        · simp [hd, hn, hc]
    · rw [if_neg hc] at he'
      subst he'
      refine ⟨le_refl _, fun h => h, ?_⟩
      simp [hc]

theorem StepRel_map_preserving {st : PassState} {f : Enemy → Enemy}
    (hf : ∀ e, (f e).hp = e.hp ∧ (f e).dead = e.dead) :
    StepRel st { st with enemies := st.enemies.map f } := by
  constructor
  · simp
  · intro i e e' hi hi'
    dsimp only at hi'
    rw [List.get?_map, hi] at hi'
    simp only [Option.map_some'] at hi'
    injection hi' with he'
    subst he'
    refine ⟨(hf e).1.le, fun h => by rw [(hf e).2]; exact h, ?_⟩
    simp [(hf e).2]

theorem resolveHit_rel {st : PassState} {p : Projectile} (hdmg : 0 ≤ p.damage) :
    StepRel st (resolveHit p st) := by
  unfold resolveHit
  split_ifs with h1 h2 h3 h4
  · exact areaDamage_rel hdmg
  · exact areaDamage_rel hdmg
  · exact singleHit_rel hdmg
  · exact StepRel_trans
      (StepRel_map_preserving (fun e => ⟨iceSlow_hp p.x p.y e, iceSlow_dead p.x p.y e⟩))
      (singleHit_rel hdmg)
  · exact singleHit_rel hdmg

theorem processProjectile_rel {st : PassState} {p : Projectile}
    {mv : Projectile → Enemy → Projectile} (hdmg : 0 ≤ p.damage) :
    StepRel st (processProjectile mv st p) := by
  unfold processProjectile
  cases hget : st.enemies.get? p.target with
  | none => exact StepRel_refl st
  | some tgt =>
    dsimp only
    split_ifs with h1 h2
    · exact StepRel_refl st
    · exact resolveHit_rel hdmg
    · exact StepRel_of_same rfl rfl

theorem runProjectiles_rel {st : PassState} {ps : List Projectile}
    {mv : Projectile → Enemy → Projectile} (hdmg : ∀ p ∈ ps, 0 ≤ p.damage) :
    StepRel st (runProjectiles mv st ps) := by
  induction ps generalizing st with
  | nil => exact StepRel_refl st
  | cons p rest ih =>
    exact StepRel_trans (processProjectile_rel (hdmg p (List.mem_cons_self _ _)))
      (ih (fun q hq => hdmg q (List.mem_cons_of_mem _ hq)))

/-- C5: across one whole projectile pass (any mixture of single-target,
splash, rainbow, burning, and ice projectiles, each of nonnegative
damage), every enemy's hit points are non-increasing, death is permanent,
the kill reward is granted exactly once for each enemy that dies during
the pass (and never for one already dead), and the end-of-pass pruning
leaves no dead enemy in the live list. -/
theorem hp_monotone_reward_once (mv : Projectile → Enemy → Projectile)
    (es : List Enemy) (money : Int) (mult : ℚ) (ps : List Projectile)
    (hdmg : ∀ p ∈ ps, 0 ≤ p.damage) :
    ((runProjectiles mv (initPass es money mult) ps).enemies.length = es.length) ∧
    (∀ i e0 e1, es.get? i = some e0 →
      (runProjectiles mv (initPass es money mult) ps).enemies.get? i = some e1 →
      e1.hp ≤ e0.hp ∧ (e0.dead = true → e1.dead = true) ∧
      (runProjectiles mv (initPass es money mult) ps).log.count i
        = (if e1.dead = true ∧ e0.dead = false then 1 else 0)) ∧
    (∀ e1 ∈ (moveProjectiles mv es money mult ps).enemies, e1.dead = false) := by
  have hrel := @runProjectiles_rel (initPass es money mult) ps mv hdmg
  refine ⟨hrel.1, ?_, ?_⟩
  · intro i e0 e1 hi hi'
    have h := hrel.2 i e0 e1 hi hi'
    refine ⟨h.1, h.2.1, ?_⟩
    have hlog : (initPass es money mult).log.count i = 0 := by
      simp [initPass]
    rw [h.2.2, hlog]
    simp
  · intro e1 h1
    simp only [moveProjectiles, List.mem_filter] at h1
    simpa using h1.2

/-- A projectile that exactly kills `rangeEnemy` (damage 20 = its hp) at
zero distance. -/
def killProj : Projectile :=
  { x := 100, y := 120, target := 0, speed := 8, damage := 20, ptype := "dart",
    splashSq := 0, special := none }

/-- `rangeEnemy` after the killing hit. -/
def killedEnemy : Enemy := { rangeEnemy with hp := 0, dead := true }

/-- Witness for C5: two identical killing projectiles aimed at the same
enemy in the same pass: hit points fall from 20 to 0, and the reward log
holds exactly one grant (the second projectile finds a dead target and is
discarded). -/
theorem hp_monotone_reward_once_witness :
    killedEnemy.hp ≤ rangeEnemy.hp ∧
    (runProjectiles (fun q _ => q) (initPass [rangeEnemy] 0 1) [killProj, killProj]).log.count 0
      = (if killedEnemy.dead = true ∧ rangeEnemy.dead = false then 1 else 0) := by
  have hget : (runProjectiles (fun q _ => q) (initPass [rangeEnemy] 0 1)
      [killProj, killProj]).enemies.get? 0 = some killedEnemy := by
    norm_num [runProjectiles, processProjectile, resolveHit, singleHit, hitEnemy,
      newlyDead, initPass, rangeEnemy, killProj, killedEnemy, dist2, iceSlow,
      show ∀ s : Special, ((none : Option Special) = some s) = False from
        fun s => by simp,
      show (("dart" : String) = "bomb") = False from by simp,
      show (("dart" : String) = "ice") = False from by simp]
  have h := (hp_monotone_reward_once (fun q _ => q) [rangeEnemy] 0 1 [killProj, killProj]
    (by
      intro p hp
      fin_cases hp <;> norm_num [killProj])).2.1 0 rangeEnemy killedEnemy rfl hget
  exact ⟨h.1, h.2.2⟩

/-- C8: a projectile whose target is stale at the moment it is processed —
the target reference is missing, or the enemy is dead or has finished the
path — leaves the pass state exactly as it was: no enemy hit points
change, no currency or reward-log entry is granted, no slow or area effect
is applied, and the projectile is not kept in the surviving list (it is
discarded). -/
theorem stale_target_discarded (mv : Projectile → Enemy → Projectile)
    (st : PassState) (p : Projectile) :
    (∀ tgt, st.enemies.get? p.target = some tgt →
      (tgt.dead = true ∨ tgt.reachedEnd = true) →
      processProjectile mv st p = st) ∧
    (st.enemies.get? p.target = none → processProjectile mv st p = st) := by
  constructor
  · intro tgt hget hdr
    unfold processProjectile
    rw [hget]
    dsimp only
    rw [if_pos (show (tgt.dead || tgt.reachedEnd) = true by
      rcases hdr with h | h <;> simp [h])]
  · intro hget
    unfold processProjectile
    rw [hget]

/-- The pass state holding one dead enemy. -/
def deadTargetSt : PassState := initPass [{ rangeEnemy with dead := true }] 7 1

/-- Witness for C8: a projectile aimed at a dead enemy changes nothing. -/
theorem stale_target_discarded_witness :
    processProjectile (fun q _ => q) deadTargetSt firedProj = deadTargetSt :=
  (stale_target_discarded (fun q _ => q) deadTargetSt firedProj).1
    { rangeEnemy with dead := true } rfl (Or.inl rfl)

/-- C9: the ice hit. Every enemy within the fixed slow radius has its
speed set to `max 0.3 (baseSpeed * 0.5)` — a function of its base speed
with a fixed floor of 0.3, independent of its current speed, so repeated
ice hits never compound below the floor (the slow is idempotent) — the
ice projectile also subtracts its damage from its target's hit points,
and the per-tick recovery step raises the speed toward the base speed by
at most 0.01 without ever exceeding it. -/
theorem ice_slow_floor_and_recovery :
    (∀ px py e, dist2 px py e.x e.y ≤ 3600 →
      (iceSlow px py e).speed = max 0.3 (e.baseSpeed * 0.5) ∧
      (0.3 : ℚ) ≤ (iceSlow px py e).speed ∧
      (∀ v, (iceSlow px py { e with speed := v }).speed = (iceSlow px py e).speed)) ∧
    (∀ px py e, iceSlow px py (iceSlow px py e) = iceSlow px py e) ∧
    (∀ p st e, p.special = none → p.ptype = "ice" →
      st.enemies.get? p.target = some e →
      ∃ e2, (resolveHit p st).enemies.get? p.target = some e2 ∧
        e2.hp = e.hp - p.damage) ∧
    (∀ e, (recoverSpeed e).speed ≤ e.baseSpeed ∧
      (e.speed ≤ e.baseSpeed → e.speed ≤ (recoverSpeed e).speed)) := by
  refine ⟨?_, ?_, ?_, ?_⟩
  · intro px py e h
    refine ⟨?_, ?_, ?_⟩
    · unfold iceSlow
      rw [if_pos h]
    · unfold iceSlow
      rw [if_pos h]
      exact le_max_left _ _
    · intro v
      unfold iceSlow
      dsimp only
      rw [if_pos h, if_pos h]
  · intro px py e
    unfold iceSlow
    split_ifs <;> rfl
  · intro p st e hsp hpt hget
    unfold resolveHit
    rw [hsp, hpt]
    rw [if_neg (by simp), if_neg ?hbomb, if_neg (by simp), if_pos rfl]
    case hbomb =>
      rintro (h | ⟨h, -⟩)
      · exact Option.noConfusion h
      · exact absurd h (by decide)
    unfold singleHit
    have hmget : ({ st with enemies := st.enemies.map (iceSlow p.x p.y) } :
        PassState).enemies.get? p.target = some (iceSlow p.x p.y e) := by
      dsimp only
      rw [List.get?_map, hget]
      rfl
    rw [hmget]
    dsimp only
    refine ⟨hitEnemy p.damage (iceSlow p.x p.y e), ?_, ?_⟩
    · rw [List.get?_set_eq_of_lt]
      have := get?_lt hmget
      simpa using this
    · rw [hitEnemy_hp, iceSlow_hp]
  · intro e
    unfold recoverSpeed
    dsimp only
    constructor
    · exact min_le_left _ _
    · intro h
      exact le_min h (by linarith)

/-- An enemy at the origin (speed 1.4 = base speed). -/
def originEnemy : Enemy := { rangeEnemy with x := 0, y := 0 }

/-- An ice projectile at the origin targeting `originEnemy`. -/
def iceProj : Projectile :=
  { x := 0, y := 0, target := 0, speed := 6, damage := 3, ptype := "ice",
    splashSq := 0, special := none }

/-- Witness for C9: the origin enemy is slowed to `max 0.3 (1.4 * 0.5)`,
the floor holds, recovery never exceeds base speed, and an ice hit takes
3 hit points off its target. -/
theorem ice_slow_floor_and_recovery_witness :
    (iceSlow 0 0 originEnemy).speed = max 0.3 (originEnemy.baseSpeed * 0.5) ∧
    (0.3 : ℚ) ≤ (iceSlow 0 0 originEnemy).speed ∧
    (recoverSpeed originEnemy).speed ≤ originEnemy.baseSpeed ∧
    (∃ e2, (resolveHit iceProj (initPass [originEnemy] 0 1)).enemies.get? 0 = some e2 ∧
      e2.hp = originEnemy.hp - iceProj.damage) := by
  have hin : dist2 0 0 originEnemy.x originEnemy.y ≤ 3600 := by
    norm_num [dist2, originEnemy, rangeEnemy]
  have h1 := ice_slow_floor_and_recovery.1 0 0 originEnemy hin
  have h3 := ice_slow_floor_and_recovery.2.2.1 iceProj (initPass [originEnemy] 0 1)
    originEnemy rfl rfl rfl
  have h4 := ice_slow_floor_and_recovery.2.2.2 originEnemy
  exact ⟨h1.1, h1.2.1, h4.1, h3⟩

/-! ## Wave completion, cash multiplier, and the omega unlock

The two wave-end code paths — the empty-queue branch of `spawnEnemy` and
the wave-end branch of `loop` — are embedded separately and composed into
the per-tick `tickWave` exactly as the main loop calls them. The
`localStorage.setItem` / `setOmegaUnlocked` side effects are counted in
`persistWrites`. -/

/-- The `GameMode` type. -/
inductive GameMode where
  | normal
  | endless
deriving DecidableEq

/-- `interface SpawnEntry` (`isBoss` defaults to false, as `!!data.isBoss`). -/
structure SpawnEntry where
  typeIndex : Nat
  isBoss : Bool
deriving DecidableEq

/-- The wave-progression slice of the game state (`stateRef`). -/
structure WaveState where
  mode : GameMode
  waveIndex : Nat
  inWave : Bool
  cashMultiplier : ℚ
  enemiesToSpawn : List SpawnEntry
  enemies : List Enemy
  spawnTimer : Int
  wave5NoDamage : Bool
  hasAllTowersByWave10 : Bool
  omegaUnlocked : Bool
  damageTaken : Int
  towers : List Tower
  gameOver : Bool
  won : Bool
  spline : List Point
  persistWrites : Nat
deriving DecidableEq

/-- The enemy built by `spawnEnemy` from a queue entry: boss entries get
ten times the hit points and 0.33 times the speed; the enemy starts at the
first spline sample. (The type index always points into the catalog; the
spline is never empty for a playable map.) -/
def spawnedEnemy (spline : List Point) (d : SpawnEntry) : Enemy :=
  let ty := enemyTypes.getD d.typeIndex
    { name := "Red", speed := 1.4, hp := 20, reward := 10, radius := 12 }
  let hpMult : ℚ := if d.isBoss then 10 else 1
  let speedMult : ℚ := if d.isBoss then 0.33 else 1
  let p0 := spline.getD 0 { x := 0, y := 0 }
  { t := 0, speed := ty.speed * speedMult, baseSpeed := ty.speed * speedMult,
    etype := ty, hp := ty.hp * hpMult, maxHp := ty.hp * hpMult,
    x := p0.x, y := p0.y, reachedEnd := false, dead := false, isBoss := d.isBoss }

/-- `new Set(s.towers.map(t => t.type))` holding all four base types. -/
def hasAllFourTypes (ts : List Tower) : Bool :=
  ts.any (fun t => t.ttype = "dart") && ts.any (fun t => t.ttype = "bomb") &&
  ts.any (fun t => t.ttype = "sniper") && ts.any (fun t => t.ttype = "ice")

/-- The endless-mode 5-wave multiplier step:
`if (s.mode === "endless" && s.waveIndex % 5 === 0) s.cashMultiplier += 0.5`. -/
def applyMult5 (s : WaveState) : WaveState :=
  if s.mode = GameMode.endless ∧ s.waveIndex % 5 = 0 then
    { s with cashMultiplier := s.cashMultiplier + 0.5 }
  else s

/-- The 3-wave multiplier step:
`if (s.waveIndex % 3 === 0 && s.waveIndex > 0) s.cashMultiplier += 0.25`. -/
def applyMult3 (s : WaveState) : WaveState :=
  if s.waveIndex % 3 = 0 ∧ 0 < s.waveIndex then
    { s with cashMultiplier := s.cashMultiplier + 0.25 }
  else s

/-- Caching of the wave-5 no-damage condition. -/
def applyWave5Check (s : WaveState) : WaveState :=
  if s.waveIndex = 5 ∧ s.damageTaken = 0 then { s with wave5NoDamage := true }
  else s

/-- The wave-10 block of `spawnEnemy`: cache the all-towers condition and
fire the unlock when both cached booleans hold — this copy has no
`!omegaUnlocked` guard, so it re-writes persistence even when the flag is
already set. -/
def applyWave10Spawn (s : WaveState) : WaveState :=
  if s.waveIndex = 10 then
    let sa : WaveState :=
      if hasAllFourTypes s.towers = true then { s with hasAllTowersByWave10 := true }
      else s
    if sa.wave5NoDamage = true ∧ sa.hasAllTowersByWave10 = true then
      { sa with omegaUnlocked := true, persistWrites := sa.persistWrites + 1 }
    else sa
  else s

/-- The wave-10 block of `loop`: identical, except the unlock is guarded
by `!s.omegaUnlocked`. -/
def applyWave10Loop (s : WaveState) : WaveState :=
  if s.waveIndex = 10 then
    let sa : WaveState :=
      if hasAllFourTypes s.towers = true then { s with hasAllTowersByWave10 := true }
      else s
    if sa.wave5NoDamage = true ∧ sa.hasAllTowersByWave10 = true ∧
        sa.omegaUnlocked = false then
      { sa with omegaUnlocked := true, persistWrites := sa.persistWrites + 1 }
    else sa
  else s

/-- The normal-mode win check:
`if (s.mode === "normal" && s.waveIndex >= 20) { gameOver; won }`. -/
def applyWinCheck (s : WaveState) : WaveState :=
  if s.mode = GameMode.normal ∧ 20 ≤ s.waveIndex then
    { s with gameOver := true, won := true }
  else s

/-- `spawnEnemy` (lines 796-840): when the queue is empty and no enemy is
alive, the wave ends here: `inWave` clears, then — in source order — the
endless 5-wave step, the 3-wave step, the wave-5 check, the wave-10 block
(unguarded unlock), and the win check. Otherwise one queue entry is
drained into a live enemy. -/
def spawnEnemyStep (s : WaveState) : WaveState :=
  match s.enemiesToSpawn with
  | [] =>
    if s.enemies = [] then
      applyWinCheck (applyWave10Spawn (applyWave5Check (applyMult3 (applyMult5
        { s with inWave := false }))))
    else s
  | d :: rest =>
    { s with enemiesToSpawn := rest, enemies := s.enemies ++ [spawnedEnemy s.spline d] }

/-- The wave-end branch of `loop` (lines 984-1000), in source order:
`inWave` clears, both multiplier steps, the win check, the wave-5 check,
and the wave-10 block with the `!s.omegaUnlocked` guard. -/
def loopWaveEnd (s : WaveState) : WaveState :=
  applyWave10Loop (applyWave5Check (applyWinCheck (applyMult3 (applyMult5
    { s with inWave := false }))))

/-- The wave logic of one `loop` tick (lines 981-1001): while `inWave`,
decrement the spawn timer and call `spawnEnemy` when it runs out
(resetting it to 28); then, if the wave is still marked active with an
empty queue and no live enemies, run the loop's own wave-end branch. -/
def tickWave (s : WaveState) : WaveState :=
  let s1 : WaveState :=
    if s.inWave = true then
      let sa : WaveState := { s with spawnTimer := s.spawnTimer - 1 }
      if sa.spawnTimer ≤ 0 then { spawnEnemyStep sa with spawnTimer := 28 } else sa
    else s
  if s1.inWave = true ∧ s1.enemiesToSpawn = [] ∧ s1.enemies = [] then loopWaveEnd s1
  else s1

/-- The multiplier increment both wave-end branches apply: the 5-wave
endless step plus, independently, the 3-wave step. -/
def multStep (s : WaveState) : ℚ :=
  (if s.mode = GameMode.endless ∧ s.waveIndex % 5 = 0 then 0.5 else 0) +
  (if s.waveIndex % 3 = 0 ∧ 0 < s.waveIndex then 0.25 else 0)

theorem applyMult5_cm (s : WaveState) :
    (applyMult5 s).cashMultiplier = s.cashMultiplier
      + (if s.mode = GameMode.endless ∧ s.waveIndex % 5 = 0 then 0.5 else 0) := by
  unfold applyMult5
  split_ifs <;> simp

theorem applyMult5_fields (s : WaveState) :
    (applyMult5 s).waveIndex = s.waveIndex ∧ (applyMult5 s).mode = s.mode ∧
    (applyMult5 s).inWave = s.inWave := by
  unfold applyMult5
  split_ifs <;> exact ⟨rfl, rfl, rfl⟩

theorem applyMult3_cm (s : WaveState) :
    (applyMult3 s).cashMultiplier = s.cashMultiplier
      + (if s.waveIndex % 3 = 0 ∧ 0 < s.waveIndex then 0.25 else 0) := by
  unfold applyMult3
  split_ifs <;> simp

theorem applyMult3_inWave (s : WaveState) : (applyMult3 s).inWave = s.inWave := by
  unfold applyMult3
  split_ifs <;> rfl

theorem applyWave5Check_cm (s : WaveState) :
    (applyWave5Check s).cashMultiplier = s.cashMultiplier ∧
    (applyWave5Check s).inWave = s.inWave := by
  unfold applyWave5Check
  split_ifs <;> exact ⟨rfl, rfl⟩

theorem applyWave10Spawn_cm (s : WaveState) :
    (applyWave10Spawn s).cashMultiplier = s.cashMultiplier ∧
    (applyWave10Spawn s).inWave = s.inWave := by
  unfold applyWave10Spawn
  dsimp only
  split_ifs <;> exact ⟨rfl, rfl⟩

theorem applyWave10Loop_cm (s : WaveState) :
    (applyWave10Loop s).cashMultiplier = s.cashMultiplier ∧
    (applyWave10Loop s).inWave = s.inWave := by
  unfold applyWave10Loop
  dsimp only
  split_ifs <;> exact ⟨rfl, rfl⟩

theorem applyWinCheck_cm (s : WaveState) :
    (applyWinCheck s).cashMultiplier = s.cashMultiplier ∧
    (applyWinCheck s).inWave = s.inWave := by
  unfold applyWinCheck
  split_ifs <;> exact ⟨rfl, rfl⟩

theorem pipeline_cm (u : WaveState) :
    ((applyWinCheck (applyWave10Spawn (applyWave5Check (applyMult3
        (applyMult5 u))))).cashMultiplier
      = u.cashMultiplier
        + (if u.mode = GameMode.endless ∧ u.waveIndex % 5 = 0 then (0.5 : ℚ) else 0)
        + (if u.waveIndex % 3 = 0 ∧ 0 < u.waveIndex then (0.25 : ℚ) else 0)) ∧
    (applyWinCheck (applyWave10Spawn (applyWave5Check (applyMult3
        (applyMult5 u))))).inWave = u.inWave := by
  have h5f := applyMult5_fields u
  constructor
  · rw [(applyWinCheck_cm _).1, (applyWave10Spawn_cm _).1, (applyWave5Check_cm _).1,
      applyMult3_cm, applyMult5_cm, h5f.1]
  · rw [(applyWinCheck_cm _).2, (applyWave10Spawn_cm _).2, (applyWave5Check_cm _).2,
      applyMult3_inWave, h5f.2.2]

theorem pipelineLoop_cm (u : WaveState) :
    ((applyWave10Loop (applyWave5Check (applyWinCheck (applyMult3
        (applyMult5 u))))).cashMultiplier
      = u.cashMultiplier
        + (if u.mode = GameMode.endless ∧ u.waveIndex % 5 = 0 then (0.5 : ℚ) else 0)
        + (if u.waveIndex % 3 = 0 ∧ 0 < u.waveIndex then (0.25 : ℚ) else 0)) ∧
    (applyWave10Loop (applyWave5Check (applyWinCheck (applyMult3
        (applyMult5 u))))).inWave = u.inWave := by
  have h5f := applyMult5_fields u
  constructor
  · rw [(applyWave10Loop_cm _).1, (applyWave5Check_cm _).1, (applyWinCheck_cm _).1,
      applyMult3_cm, applyMult5_cm, h5f.1]
  · rw [(applyWave10Loop_cm _).2, (applyWave5Check_cm _).2, (applyWinCheck_cm _).2,
      applyMult3_inWave, h5f.2.2]

theorem spawnEnemyStep_complete (s : WaveState) (hq : s.enemiesToSpawn = [])
    (he : s.enemies = []) :
    (spawnEnemyStep s).cashMultiplier = s.cashMultiplier + multStep s ∧
    (spawnEnemyStep s).inWave = false := by
  unfold spawnEnemyStep
  rw [hq]
  rw [if_pos he]
  constructor
  · rw [(pipeline_cm _).1]
    dsimp only
    unfold multStep
    ring
  · rw [(pipeline_cm _).2]

theorem loopWaveEnd_mult (s : WaveState) :
    (loopWaveEnd s).cashMultiplier = s.cashMultiplier + multStep s ∧
    (loopWaveEnd s).inWave = false := by
  unfold loopWaveEnd
  constructor
  · rw [(pipelineLoop_cm _).1]
    dsimp only
    unfold multStep
    ring
  · rw [(pipelineLoop_cm _).2]

theorem spawnEnemyStep_cons (s : WaveState) (d : SpawnEntry) (rest : List SpawnEntry)
    (hq : s.enemiesToSpawn = d :: rest) :
    spawnEnemyStep s
      = { s with enemiesToSpawn := rest,
                 enemies := s.enemies ++ [spawnedEnemy s.spline d] } := by
  unfold spawnEnemyStep
  rw [hq]

theorem spawnEnemyStep_waiting (s : WaveState) (hq : s.enemiesToSpawn = [])
    (he : ¬ s.enemies = []) : spawnEnemyStep s = s := by
  unfold spawnEnemyStep
  rw [hq]
  rw [if_neg he]

theorem tickWave_idle (s : WaveState) (hw : s.inWave = false) : tickWave s = s := by
  unfold tickWave
  dsimp only
  rw [if_neg (by simp [hw]), if_neg (by simp [hw])]

theorem tickWave_complete (s : WaveState) (hw : s.inWave = true)
    (hq : s.enemiesToSpawn = []) (he : s.enemies = []) :
    (tickWave s).cashMultiplier = s.cashMultiplier + multStep s ∧
    (tickWave s).inWave = false := by
  unfold tickWave
  dsimp only
  rw [if_pos hw]
  by_cases ht : s.spawnTimer - 1 ≤ 0
  · rw [if_pos ht]
    have hsc := spawnEnemyStep_complete { s with spawnTimer := s.spawnTimer - 1 }
      hq he
    rw [if_neg (by
      dsimp only
      rw [hsc.2]
      simp)]
    dsimp only
    exact ⟨hsc.1, hsc.2⟩
  · rw [if_neg ht]
    rw [if_pos ⟨hw, hq, he⟩]
    exact loopWaveEnd_mult _

theorem tickWave_incomplete (s : WaveState)
    (hne : ¬(s.enemiesToSpawn = [] ∧ s.enemies = [])) :
    (tickWave s).cashMultiplier = s.cashMultiplier := by
  by_cases hw : s.inWave = true
  · unfold tickWave
    dsimp only
    rw [if_pos hw]
    by_cases ht : s.spawnTimer - 1 ≤ 0
    · rw [if_pos ht]
      by_cases hq : s.enemiesToSpawn = []
      · have he : ¬ s.enemies = [] := fun h => hne ⟨hq, h⟩
        rw [spawnEnemyStep_waiting { s with spawnTimer := s.spawnTimer - 1 } hq he]
        rw [if_neg (by
          dsimp only
          rintro ⟨-, -, hee⟩
          exact he hee)]
      · obtain ⟨d, rest, hcons⟩ := List.exists_cons_of_ne_nil hq
        rw [spawnEnemyStep_cons { s with spawnTimer := s.spawnTimer - 1 } d rest hcons]
        rw [if_neg (by
          dsimp only
          rintro ⟨-, -, hee⟩
          exact List.append_ne_nil_of_right_ne_nil _ (by simp) hee)]
    · rw [if_neg ht]
      rw [if_neg (by
        dsimp only
        rintro ⟨-, hqq, hee⟩
        exact hne ⟨hqq, hee⟩)]
  · rw [tickWave_idle s (by simpa using hw)]

/-- C1: the cash-multiplier step runs exactly once per wave-completion
event. On the tick that detects completion (`inWave` with an empty queue
and no live enemies) the multiplier grows by exactly `multStep` — the
endless 5-wave step plus, independently, the 3-wave step — and `inWave`
clears, whichever of the two duplicated checks (the spawner's empty-queue
branch or the main loop's wave-end branch) runs first; once `inWave` is
clear a tick is the identity, and a tick that does not complete the wave
never touches the multiplier. Hence no call order applies either step
twice for one completion. -/
theorem cash_multiplier_once :
    (∀ s, s.inWave = true → s.enemiesToSpawn = [] → s.enemies = [] →
      (tickWave s).cashMultiplier = s.cashMultiplier + multStep s ∧
      (tickWave s).inWave = false) ∧
    (∀ s, s.inWave = false → tickWave s = s) ∧
    (∀ s, ¬(s.enemiesToSpawn = [] ∧ s.enemies = []) →
      (tickWave s).cashMultiplier = s.cashMultiplier) :=
  ⟨tickWave_complete, tickWave_idle, tickWave_incomplete⟩

/-- A wave-9-completion state in endless mode: both the 3-wave and 5-wave
amounts are visible in `multStep` at wave 15. -/
def wave15State : WaveState :=
  { mode := GameMode.endless, waveIndex := 15, inWave := true, cashMultiplier := 2,
    enemiesToSpawn := [], enemies := [], spawnTimer := 5, wave5NoDamage := false,
    hasAllTowersByWave10 := false, omegaUnlocked := false, damageTaken := 3,
    towers := [], gameOver := false, won := false, spline := [], persistWrites := 0 }

/-- Witness for C1: completing wave 15 in endless mode adds `0.5 + 0.25`
exactly once; an idle tick is the identity; a tick with a live enemy
leaves the multiplier alone. -/
theorem cash_multiplier_once_witness :
    ((tickWave wave15State).cashMultiplier = wave15State.cashMultiplier + multStep wave15State ∧
      (tickWave wave15State).inWave = false) ∧
    tickWave { wave15State with inWave := false } = { wave15State with inWave := false } ∧
    (tickWave { wave15State with enemies := [rangeEnemy] }).cashMultiplier
      = ({ wave15State with enemies := [rangeEnemy] } : WaveState).cashMultiplier :=
  ⟨cash_multiplier_once.1 wave15State rfl rfl rfl,
   cash_multiplier_once.2.1 _ rfl,
   cash_multiplier_once.2.2 _ (by
     rintro ⟨-, hee⟩
     exact absurd hee (by simp))⟩

/-- The wave-10 completion state with the unlock flag already persisted
(carried into the session by `startGame`) and both cached condition
booleans true; `spawnTimer = 1` makes the spawner's empty-queue branch the
one that runs. -/
def unlockState : WaveState :=
  { mode := GameMode.normal, waveIndex := 10, inWave := true, cashMultiplier := 1,
    enemiesToSpawn := [], enemies := [], spawnTimer := 1, wave5NoDamage := true,
    hasAllTowersByWave10 := true, omegaUnlocked := true, damageTaken := 0,
    towers := [], gameOver := false, won := false, spline := [], persistWrites := 0 }

/-- C2 (code bug): with the unlock flag already true, the wave-10 check in
`spawnEnemy`'s empty-queue branch re-writes persistence
(`localStorage.setItem` / `setOmegaUnlocked` run again: one persist event),
because this copy lacks the `!s.omegaUnlocked` guard; the main loop's
wave-end copy of the same check, reached when the spawn timer is not due,
is correctly guarded and writes nothing. -/
theorem omega_unlock_rewrite_bug :
    unlockState.omegaUnlocked = true ∧
    (tickWave unlockState).persistWrites = 1 ∧
    (tickWave { unlockState with spawnTimer := 50 }).persistWrites = 0 :=
  ⟨rfl, rfl, rfl⟩

end TD
